import Mathlib

/-!
Shallow embedding of the non-overlapping randomized layout engine of
`src/1_count_correct_words/count_correct_words.py`.

Numbers: the Python code draws integer centers (`random.randint`) and receives
integer extents from the text renderer; geometry (`calculate_corners`,
projections, the SAT test) is carried out over the rationals, with the
trigonometric factors at the program's discrete rotation set {0, 90, 180, 270}
evaluated exactly (the real-number semantics of the float computation).

Randomness: the ambient `random` module is modelled as an injected draw
sequence `RandState`; each primitive (`randint`, `uniform`, `choice`,
`shuffle`) consumes draws from the sequence.  `randint lo hi` returns `none`
when `hi < lo`, modelling the `ValueError` CPython raises on an empty range;
an `Option`-`none` anywhere below models an uncaught Python exception (or, for
the fuel-bounded scramble loop, divergence).
-/

namespace CountCorrectWords

unseal Rat.sub Rat.add Rat.mul Rat.inv

/-- The injected random source: an arbitrary infinite sequence of draws
together with a cursor.  Models the stream of values produced by the `random`
module for one run. -/
structure RandState where
  seq : ℕ → ℕ
  idx : ℕ

/-- Consume one raw draw from the source. -/
def drawNat (s : RandState) : ℕ × RandState :=
  (s.seq s.idx, ⟨s.seq, s.idx + 1⟩)

/-- Models `random.randint(lo, hi)`: a value in `[lo, hi]` determined by the
injected source; `none` models the `ValueError` raised on an empty range
(`lo > hi`). -/
def randint (lo hi : ℤ) (s : RandState) : Option (ℤ × RandState) :=
  if lo ≤ hi then
    let (d, s') := drawNat s
    some (lo + (d : ℤ) % (hi - lo + 1), s')
  else
    none

/-- Models `random.uniform(a, b)`: a draw-determined rational in `[a, b]`. -/
def uniformQ (a b : ℚ) (s : RandState) : ℚ × RandState :=
  let (d, s') := drawNat s
  (a + ((d % 1001 : ℕ) : ℚ) / 1000 * (b - a), s')

/-- Models `random.choice(seq)`: a draw-determined element; `none` models the
`IndexError` raised on an empty sequence. -/
def choice {α : Type} (l : List α) (s : RandState) : Option (α × RandState) :=
  match l with
  | [] => none
  | a :: _ =>
    let (d, s') := drawNat s
    some (l.getD (d % l.length) a, s')

/-- Swap the elements at positions `i` and `j` of a list (identity when either
index is out of range). -/
def listSwap {α : Type} (l : List α) (i j : ℕ) : List α :=
  match l.get? i, l.get? j with
  | some a, some b => (l.set i b).set j a
  | _, _ => l

/-- The Fisher–Yates loop of `random.shuffle`: for `i` from `len - 1` down to
`1`, draw `j < i + 1` and swap positions `i` and `j`. -/
def shuffleAux (l : List Char) : ℕ → RandState → List Char × RandState
  | 0, s => (l, s)
  | Nat.succ k, s =>
    let (d, s') := drawNat s
    let j := d % (Nat.succ k + 1)
    shuffleAux (listSwap l (Nat.succ k) j) k s'

/-- Models `random.shuffle` on a list of characters. -/
def shuffle (l : List Char) (s : RandState) : List Char × RandState :=
  shuffleAux l (l.length - 1) s

-- ### Constants of the module

def ALLOWED_ROTATIONS : List ℤ := [0, 90, 180, 270]

def IMAGE_SIZE : ℤ × ℤ := (800, 600)

def DEFAULT_SAFE_MARGIN : ℤ := 20

def MAX_PLACEMENT_ATTEMPTS : ℕ := 100

-- ### Geometry kernel

/-- Exact value of `math.cos(math.radians angle)` at the program's discrete
rotation set `{0, 90, 180, 270}` (real-number semantics; the program never
calls `calculate_corners` at other nonzero angles, where this table
defaults to `0`). -/
def cosd (angle : ℤ) : ℚ :=
  if angle % 360 = 0 then 1
  else if angle % 360 = 90 then 0
  else if angle % 360 = 180 then -1
  else 0

/-- Exact value of `math.sin(math.radians angle)` at the program's discrete
rotation set (see `cosd`). -/
def sind (angle : ℤ) : ℚ :=
  if angle % 360 = 0 then 0
  else if angle % 360 = 90 then 1
  else if angle % 360 = 180 then 0
  else if angle % 360 = 270 then -1
  else 0

/-- Model of `calculate_corners(center_x, center_y, width, height, angle)`: the four
corners of the rectangle of the given extents centered at the given point,
rotated by `angle` degrees; `angle == 0` takes the source's explicit
unrotated fast path. -/
def calculate_corners (center_x center_y width height : ℚ) (angle : ℤ) :
    List (ℚ × ℚ) :=
  let half_width := width / 2
  let half_height := height / 2
  let corners : List (ℚ × ℚ) :=
    [(-half_width, -half_height), (half_width, -half_height),
     (half_width, half_height), (-half_width, half_height)]
  if angle = 0 then
    corners.map (fun c => (center_x + c.1, center_y + c.2))
  else
    let cos_a := cosd angle
    let sin_a := sind angle
    corners.map (fun c =>
      (center_x + c.1 * cos_a - c.2 * sin_a,
       center_y + c.1 * sin_a + c.2 * cos_a))

/-- Model of `check_corners_in_bounds(corners, image_width, image_height, margin)`:
every corner lies in the half-open region
`[margin, image_width - margin) × [margin, image_height - margin)`. -/
def check_corners_in_bounds (corners : List (ℚ × ℚ))
    (image_width image_height margin : ℚ) : Bool :=
  corners.all fun c =>
    !(decide (c.1 < margin) || decide (c.1 ≥ image_width - margin) ||
      decide (c.2 < margin) || decide (c.2 ≥ image_height - margin))

/-- Model of `project_polygon(corners, axis)`: the `(min, max)` of the dot products of
the corners with the axis.  The source folds from `(+inf, -inf)`; for the
nonempty corner lists the program produces this equals the fold below from the
first projection (the empty case, unreachable in the program, returns
`(0, 0)`). -/
def project_polygon (corners : List (ℚ × ℚ)) (axis : ℚ × ℚ) : ℚ × ℚ :=
  match corners.map (fun c => c.1 * axis.1 + c.2 * axis.2) with
  | [] => (0, 0)
  | p :: ps => (ps.foldl min p, ps.foldl max p)

/-- Newton iteration for the integer square root, driven by explicit fuel
(structural recursion in place of the library's well-founded one, so that
concrete instances reduce in the kernel). -/
def sqrtIter (n : ℕ) : ℕ → ℕ → ℕ
  | 0, guess => guess
  | fuel + 1, guess =>
    let next := (guess + n / guess) / 2
    if next < guess then sqrtIter n fuel next else guess

/-- Integer square root (exact on perfect squares). -/
def natSqrt (n : ℕ) : ℕ :=
  if n ≤ 1 then n else sqrtIter n n (n / 2)

/-- Models `math.sqrt` on the radicands the program produces: at the discrete
rotation set every polygon edge is axis-parallel, so the squared edge lengths
reaching this function are perfect squares of rationals, on which this value
is exact. -/
def sqrtQ (q : ℚ) : ℚ :=
  (natSqrt q.num.toNat : ℚ) / (natSqrt q.den : ℚ)

/-- Model of `get_polygon_axes(corners)`: the unit normal of each edge of the polygon;
a zero-length edge contributes no axis. -/
def get_polygon_axes (corners : List (ℚ × ℚ)) : List (ℚ × ℚ) :=
  (List.range corners.length).filterMap fun i =>
    match corners.get? i, corners.get? ((i + 1) % corners.length) with
    | some p1, some p2 =>
      let edge : ℚ × ℚ := (p2.1 - p1.1, p2.2 - p1.2)
      let normal : ℚ × ℚ := (-edge.2, edge.1)
      let length := sqrtQ (normal.1 ^ 2 + normal.2 ^ 2)
      if length > 0 then some (normal.1 / length, normal.2 / length) else none
    | _, _ => none

/-- Model of `check_polygons_overlap(corners1, corners2, margin)`: the SAT test — the
polygons overlap unless some edge-normal axis of either polygon yields
margin-expanded projection intervals that are strictly separated. -/
def check_polygons_overlap (corners1 corners2 : List (ℚ × ℚ)) (margin : ℚ) :
    Bool :=
  let axes := get_polygon_axes corners1 ++ get_polygon_axes corners2
  !(axes.any fun axis =>
    let proj1 := project_polygon corners1 axis
    let proj2 := project_polygon corners2 axis
    let q1 : ℚ × ℚ := (proj1.1 - margin, proj1.2 + margin)
    let q2 : ℚ × ℚ := (proj2.1 - margin, proj2.2 + margin)
    decide (q1.2 < q2.1) || decide (q2.2 < q1.1))

-- ### Placement sampler and layout loop

/-- A record of a successfully placed word, exactly the tuple
`(x, y, collision_width, collision_height, angle)` the source appends to
`placed_words`. -/
structure PlacedWord where
  x : ℤ
  y : ℤ
  w : ℤ
  h : ℤ
  angle : ℤ
deriving DecidableEq, Repr

/-- The polygon of a placed word, recomputed from its recorded fields as in
`calculate_corners(px, py, pw, ph, pangle)`. -/
def placedCorners (p : PlacedWord) : List (ℚ × ℚ) :=
  calculate_corners (p.x : ℚ) (p.y : ℚ) (p.w : ℚ) (p.h : ℚ) p.angle

/-- Model of `try_place_word(image_size, placed_words, width, height, angle,
safe_margin)`: one placement attempt.  Returns `some (some (x, y), s')` for a
valid placement, `some (none, s')` for a rejection (the source's `None`), and
`none` for the uncaught `ValueError` raised by `random.randint` when even the
relaxed feasible range is empty. -/
def try_place_word (image_size : ℤ × ℤ) (placed_words : List PlacedWord)
    (width height angle safe_margin : ℤ) (s : RandState) :
    Option (Option (ℤ × ℤ) × RandState) :=
  let min_x := width / 2 + safe_margin
  let max_x := image_size.1 - width / 2 - safe_margin
  let min_y := height / 2 + safe_margin
  let max_y := image_size.2 - height / 2 - safe_margin
  -- If the word is too large for the image with margins, reduce the margins
  let min_x' := if min_x ≥ max_x then width / 2 else min_x
  let max_x' := if min_x ≥ max_x then image_size.1 - width / 2 else max_x
  let min_y' := if min_y ≥ max_y then height / 2 else min_y
  let max_y' := if min_y ≥ max_y then image_size.2 - height / 2 else max_y
  match randint min_x' max_x' s with
  | none => none
  | some (x, s1) =>
    match randint min_y' max_y' s1 with
    | none => none
    | some (y, s2) =>
      let current_corners :=
        calculate_corners (x : ℚ) (y : ℚ) (width : ℚ) (height : ℚ) angle
      if !(check_corners_in_bounds current_corners (image_size.1 : ℚ)
            (image_size.2 : ℚ) (safe_margin : ℚ)) then
        some (none, s2)
      else if placed_words.any (fun p =>
          check_polygons_overlap current_corners (placedCorners p) 20) then
        some (none, s2)
      else
        some (some (x, y), s2)

/-- The `for attempt in range(MAX_PLACEMENT_ATTEMPTS)` retry loop around
`try_place_word`: first success wins, exhaustion yields `some (none, _)`, and
a raised `ValueError` (`none`) propagates. -/
def attempt_loop (image_size : ℤ × ℤ) (placed_words : List PlacedWord)
    (width height angle safe_margin : ℤ) :
    ℕ → RandState → Option (Option (ℤ × ℤ) × RandState)
  | 0, s => some (none, s)
  | Nat.succ n, s =>
    match try_place_word image_size placed_words width height angle safe_margin s with
    | none => none
    | some (some pos, s') => some (some pos, s')
    | some (none, s') =>
      attempt_loop image_size placed_words width height angle safe_margin n s'

/-- The placement portion of `generate_word_puzzle` (its per-word attempt
loop), parameterized by the canvas size and a fixed, pre-rendered item list
`(width, height, angle)`; in `generate_word_puzzle` the canvas is the constant
`IMAGE_SIZE`.  Returns the placed set and the number of skipped items, or
`none` when a `ValueError` escapes. -/
def run_layout (image_size : ℤ × ℤ) (safe_margin : ℤ) :
    List (ℤ × ℤ × ℤ) → List PlacedWord → ℕ → RandState →
    Option (List PlacedWord × ℕ × RandState)
  | [], placed, skips, s => some (placed, skips, s)
  | (w, h, a) :: rest, placed, skips, s =>
    match attempt_loop image_size placed w h a safe_margin
        MAX_PLACEMENT_ATTEMPTS s with
    | none => none
    | some (some (x, y), s') =>
      run_layout image_size safe_margin rest (placed ++ [⟨x, y, w, h, a⟩])
        skips s'
    | some (none, s') =>
      run_layout image_size safe_margin rest placed (skips + 1) s'

-- ### Word scrambling

/-- The body of `scramble_word`: repeatedly shuffle the character list in
place until it differs from the original word.  The unbounded `while True`
is driven by explicit fuel; `none` models divergence (the loop never
exiting within the given fuel). -/
def scramble_aux (word : List Char) :
    List Char → ℕ → RandState → Option (List Char × RandState)
  | _, 0, _ => none
  | chars, Nat.succ fuel, s =>
    let (chars', s') := shuffle chars s
    if chars' = word then scramble_aux word chars' fuel s'
    else some (chars', s')

/-- Model of `scramble_word(word)`: an incorrect version of the word obtained by
random reordering, guaranteed to differ from the original (fuel-bounded). -/
def scramble_word (word : String) (fuel : ℕ) (s : RandState) :
    Option (String × RandState) :=
  (scramble_aux word.toList word.toList fuel s).map
    (fun r => (String.mk r.1, r.2))

-- ### Word lists, presets, and the generator

/-- Model of `WORDS_BY_LENGTH`: the module's word lists, keyed by word length
(`none` models a `KeyError`). -/
def WORDS_BY_LENGTH (n : ℕ) : Option (List String) :=
  if n = 3 then some
    ["act", "add", "air", "and", "ant", "arm", "art", "ask", "bad", "bag",
     "bat", "bed", "bee", "big", "box", "boy", "bug", "bus", "but", "buy",
     "can", "cap", "car", "cat", "cow", "cry", "cup", "cut", "dad", "day",
     "dog", "dry", "ear", "eat", "egg", "end", "eye", "fan", "far", "fat",
     "fit", "fix", "fly", "for", "fun", "gas", "get", "god", "hat", "hit",
     "hot"]
  else if n = 4 then some
    ["able", "acid", "aged", "also", "area", "army", "away", "baby", "back",
     "ball", "band", "bank", "base", "bath", "bear", "beat", "been", "beer",
     "bell", "belt", "best", "bird", "blow", "blue", "boat", "body", "bomb",
     "bond", "bone", "book", "boom", "born", "boss", "both", "bowl", "bulk",
     "burn", "bush", "busy", "call", "calm", "came", "camp", "card", "care",
     "case", "cash", "cast", "cell", "chat"]
  else if n = 5 then some
    ["about", "above", "abuse", "actor", "adapt", "after", "again", "agree",
     "ahead", "alarm", "album", "alert", "alike", "alive", "allow", "alone",
     "along", "alter", "among", "anger", "angle", "angry", "ankle", "apart",
     "apple", "apply", "arena", "argue", "arise", "armor", "array", "arrow",
     "asset", "avoid", "award", "aware", "awful", "bacon", "badge", "badly",
     "basic", "basis", "beach", "beard", "beast", "begin", "being", "below",
     "bench", "berry"]
  else none

/-- One entry of `DIFFICULTY_PRESETS`. -/
structure Params where
  word_length : ℕ
  total_words_range : ℤ × ℤ
  image_density : ℚ
  font_size_range : ℤ × ℤ
deriving DecidableEq, Repr

/-- A partial parameter record, modelling the `custom_params` dict whose
entries override the chosen preset via `dict.update`. -/
structure PartialParams where
  word_length : Option ℕ := none
  total_words_range : Option (ℤ × ℤ) := none
  image_density : Option ℚ := none
  font_size_range : Option (ℤ × ℤ) := none
deriving DecidableEq, Repr

/-- Model of `params.update(custom_params)`: fields present in the override replace the
preset's. -/
def updateParams (p : Params) (c : PartialParams) : Params :=
  { word_length := c.word_length.getD p.word_length
    total_words_range := c.total_words_range.getD p.total_words_range
    image_density := c.image_density.getD p.image_density
    font_size_range := c.font_size_range.getD p.font_size_range }

/-- Model of `DIFFICULTY_PRESETS` (`none` models a `KeyError` on an unknown key). -/
def DIFFICULTY_PRESETS (difficulty : String) : Option Params :=
  if difficulty = "easy" then
    some ⟨3, (5, 6), 3/10, (80, 100)⟩
  else if difficulty = "medium" then
    some ⟨4, (7, 8), 1/2, (60, 80)⟩
  else if difficulty = "hard" then
    some ⟨5, (9, 10), 7/10, (60, 80)⟩
  else none

/-- Python's `int()` truncation toward zero on a rational. -/
def truncQ (q : ℚ) : ℤ := Int.tdiv q.num (q.den : ℤ)

/-- Model of `str.lower()`: lowercase every character. -/
def lowerString (w : String) : String := String.mk (w.toList.map Char.toLower)

/-- The computational output of one `generate_word_puzzle` run: the chosen
word, the placed set, the two success counters, and the requested word count
(the number of skipped items is `total_words - actual_total_count`). -/
structure GenResult where
  word : String
  placed_words : List PlacedWord
  actual_correct_count : ℕ
  actual_total_count : ℕ
  total_words : ℤ
deriving DecidableEq, Repr

/-- The `for i in range(total_words)` loop of `generate_word_puzzle`: per
item, pick the (possibly scrambled) word, draw a font size and a rotation,
ask the rendering oracle for the collision extents (a `none` oracle answer
models a failed render, skipped with `continue`), then run the bounded
placement attempts, appending successes and their counter updates. -/
def puzzle_loop (word : String) (correct_count : ℤ) (fsr : ℤ × ℤ)
    (render : String → ℤ → ℤ → Option (ℤ × ℤ)) (fuel : ℕ) :
    ℕ → ℕ → List PlacedWord → ℕ → ℕ → RandState →
    Option (List PlacedWord × ℕ × ℕ × RandState)
  | _, 0, placed, cc, tc, s => some (placed, cc, tc, s)
  | i, Nat.succ rem, placed, cc, tc, s =>
    let is_correct : Bool := decide ((i : ℤ) < correct_count)
    match (if is_correct then some (word, s) else scramble_word word fuel s) with
    | none => none
    | some (current_word, s) =>
      match randint fsr.1 fsr.2 s with
      | none => none
      | some (font_size, s) =>
        match choice ALLOWED_ROTATIONS s with
        | none => none
        | some (angle, s) =>
          match render current_word font_size angle with
          | none => puzzle_loop word correct_count fsr render fuel (i + 1) rem
              placed cc tc s
          | some (cw, ch) =>
            match attempt_loop IMAGE_SIZE placed cw ch angle
                DEFAULT_SAFE_MARGIN MAX_PLACEMENT_ATTEMPTS s with
            | none => none
            | some (some (x, y), s) =>
              puzzle_loop word correct_count fsr render fuel (i + 1) rem
                (placed ++ [⟨x, y, cw, ch, angle⟩])
                (if is_correct then cc + 1 else cc) (tc + 1) s
            | some (none, s) =>
              puzzle_loop word correct_count fsr render fuel (i + 1) rem
                placed cc tc s

/-- Model of `generate_word_puzzle(difficulty, correct_ratio, custom_word,
custom_params)`, with the text renderer injected as an oracle from
`(text, font_size, angle)` to collision extents and the ambient random module
injected as a `RandState`.  `none` models an uncaught exception (or scramble
divergence); image compositing and file I/O are outside the core and carry no
information beyond the returned record. -/
def generate_word_puzzle (difficulty : String) (correct_ratio : Option ℚ)
    (custom_word : Option String) (custom_params : Option PartialParams)
    (render : String → ℤ → ℤ → Option (ℤ × ℤ)) (fuel : ℕ) (s : RandState) :
    Option GenResult :=
  match DIFFICULTY_PRESETS difficulty with
  | none => none
  | some preset =>
    let params := match custom_params with
      | some c => updateParams preset c
      | none => preset
    match randint params.total_words_range.1 params.total_words_range.2 s with
    | none => none
    | some (total_words, s) =>
      let (ratio, s) := match correct_ratio with
        | some r => (r, s)
        | none => uniformQ (1/5) (3/5) s
      let correct_count := max 1 (truncQ ((total_words : ℚ) * ratio))
      let wordResult : Option (String × RandState) :=
        match custom_word with
        | some w => some (lowerString w, s)
        | none =>
          match WORDS_BY_LENGTH params.word_length with
          | none => none
          | some words => choice words s
      match wordResult with
      | none => none
      | some (word, s) =>
        match puzzle_loop word correct_count params.font_size_range render
            fuel 0 total_words.toNat [] 0 0 s with
        | none => none
        | some (placed, cc, tc, _) =>
          some ⟨word, placed, cc, tc, total_words⟩

-- ### Basic geometry lemmas

/-- The unrotated fast path of `calculate_corners` spelled out. -/
lemma calculate_corners_zero (cx cy w h : ℚ) :
    calculate_corners cx cy w h 0 =
      [(cx - w / 2, cy - h / 2), (cx + w / 2, cy - h / 2),
       (cx + w / 2, cy + h / 2), (cx - w / 2, cy + h / 2)] := by
  simp [calculate_corners, sub_eq_add_neg]

/-- Unfolding of the bounds test into the half-open containment conditions. -/
lemma check_corners_in_bounds_iff (corners : List (ℚ × ℚ)) (W H m : ℚ) :
    check_corners_in_bounds corners W H m = true ↔
      ∀ c ∈ corners, m ≤ c.1 ∧ c.1 < W - m ∧ m ≤ c.2 ∧ c.2 < H - m := by
  simp only [check_corners_in_bounds, List.all_eq_true, Bool.not_eq_true',
    Bool.or_eq_false_iff, decide_eq_false_iff_not, not_lt, ge_iff_le, not_le]
  constructor
  · intro h c hc
    obtain ⟨⟨⟨h1, h2⟩, h3⟩, h4⟩ := h c hc
    exact ⟨h1, h2, h3, h4⟩
  · intro h c hc
    obtain ⟨h1, h2, h3, h4⟩ := h c hc
    exact ⟨⟨⟨h1, h2⟩, h3⟩, h4⟩

/-- Unfolding of the SAT verdict: "no collision" exactly when some computed
axis strictly separates the margin-expanded projection intervals. -/
lemma check_polygons_overlap_false_iff (A B : List (ℚ × ℚ)) (m : ℚ) :
    check_polygons_overlap A B m = false ↔
      ∃ axis ∈ get_polygon_axes A ++ get_polygon_axes B,
        ((project_polygon A axis).2 + m < (project_polygon B axis).1 - m ∨
         (project_polygon B axis).2 + m < (project_polygon A axis).1 - m) := by
  simp only [check_polygons_overlap, Bool.not_eq_false', List.any_eq_true,
    Bool.or_eq_true, decide_eq_true_iff]

/-- The SAT verdict does not depend on the order of the two polygons. -/
lemma check_polygons_overlap_symm (A B : List (ℚ × ℚ)) (m : ℚ) :
    check_polygons_overlap A B m = check_polygons_overlap B A m := by
  have key : check_polygons_overlap A B m = false ↔
      check_polygons_overlap B A m = false := by
    rw [check_polygons_overlap_false_iff, check_polygons_overlap_false_iff]
    constructor <;> rintro ⟨ax, hmem, hsep⟩ <;> refine ⟨ax, ?_, hsep.symm⟩ <;>
      simp only [List.mem_append] at hmem ⊢ <;> tauto
  cases hb : check_polygons_overlap A B m <;>
    cases hc : check_polygons_overlap B A m <;> simp_all

-- ### Claim theorems: geometry

/-- C5.  Rotation correctness: at angle 0, `calculate_corners` returns exactly
the unrotated axis-aligned corners (center ± half-extents, via the explicit
fast path, no rotation factors applied); at angle 180 the returned corners are
exactly the angle-0 corners reflected through the center. -/
theorem c5_rotation_correctness :
    (∀ cx cy w h : ℚ, calculate_corners cx cy w h 0 =
      [(cx - w / 2, cy - h / 2), (cx + w / 2, cy - h / 2),
       (cx + w / 2, cy + h / 2), (cx - w / 2, cy + h / 2)]) ∧
    (∀ cx cy w h : ℚ, calculate_corners cx cy w h 180 =
      (calculate_corners cx cy w h 0).map
        (fun c => (2 * cx - c.1, 2 * cy - c.2))) := by
  refine ⟨calculate_corners_zero, fun cx cy w h => ?_⟩
  rw [calculate_corners_zero]
  simp only [calculate_corners, cosd, sind, List.map]
  norm_num
  constructor
  · constructor <;> ring
  constructor
  · constructor <;> ring
  constructor
  · constructor <;> ring
  constructor <;> ring

/-- C8.  The bounds test accepts exactly when every corner satisfies
`margin ≤ x < W - margin` and `margin ≤ y < H - margin`; in particular a
polygon with a corner at `x = W - margin` is out of bounds while a corner at
`x = margin` is still in bounds. -/
theorem c8_half_open_bounds :
    (∀ (corners : List (ℚ × ℚ)) (W H m : ℚ),
      check_corners_in_bounds corners W H m = true ↔
        ∀ c ∈ corners, m ≤ c.1 ∧ c.1 < W - m ∧ m ≤ c.2 ∧ c.2 < H - m) ∧
    check_corners_in_bounds
      [(700, 100), (780, 100), (780, 200), (700, 200)] 800 600 20 = false ∧
    check_corners_in_bounds
      [(20, 100), (100, 100), (100, 200), (20, 200)] 800 600 20 = true := by
  refine ⟨check_corners_in_bounds_iff, by decide, by decide⟩

/-- C4.  SAT strict-separation contract: `check_polygons_overlap` reports "no
collision" iff some edge-normal axis of either polygon yields margin-expanded
projection intervals that are strictly separated; in particular two unit
squares touching along an edge are reported as colliding at zero margin. -/
theorem c4_sat_contract :
    (∀ (A B : List (ℚ × ℚ)) (m : ℚ),
      check_polygons_overlap A B m = false ↔
        ∃ axis ∈ get_polygon_axes A ++ get_polygon_axes B,
          ((project_polygon A axis).2 + m < (project_polygon B axis).1 - m ∨
           (project_polygon B axis).2 + m < (project_polygon A axis).1 - m)) ∧
    check_polygons_overlap [(0, 0), (1, 0), (1, 1), (0, 1)]
      [(1, 0), (2, 0), (2, 1), (1, 1)] 0 = true := by
  refine ⟨check_polygons_overlap_false_iff, by decide⟩

-- ### Placement lemmas

/-- An accepted placement passed both validity checks: its polygon is in
bounds under the full safe margin, and it does not overlap any previously
placed word under the inter-item margin 20. -/
lemma try_place_word_ok {image_size : ℤ × ℤ} {placed : List PlacedWord}
    {w h a m : ℤ} {s : RandState} {x y : ℤ} {s' : RandState}
    (hres : try_place_word image_size placed w h a m s = some (some (x, y), s')) :
    check_corners_in_bounds (calculate_corners (x : ℚ) (y : ℚ) (w : ℚ) (h : ℚ) a)
      (image_size.1 : ℚ) (image_size.2 : ℚ) (m : ℚ) = true ∧
    ∀ p ∈ placed, check_polygons_overlap
      (calculate_corners (x : ℚ) (y : ℚ) (w : ℚ) (h : ℚ) a)
      (placedCorners p) 20 = false := by
  simp only [try_place_word] at hres
  split at hres
  · exact absurd hres (by simp)
  split at hres
  · exact absurd hres (by simp)
  split at hres
  · simp at hres
  split at hres
  · simp at hres
  rename_i hinb hany
  simp only [Option.some.injEq, Prod.mk.injEq] at hres
  obtain ⟨⟨hx, hy⟩, _⟩ := hres
  subst hx; subst hy
  constructor
  · simpa using hinb
  · intro p hp
    exact Bool.eq_false_iff.mpr fun hover =>
      hany (List.any_eq_true.mpr ⟨p, hp, hover⟩)

/-- When an axis-level margin relaxation is in force (on that axis the item
spans at least the canvas minus both margins), no angle-0 candidate center
passes the full-margin bounds test. -/
lemma bounds_fail_of_relaxed (x y w h W H m : ℚ)
    (hw : W - 2 * m ≤ w ∨ H - 2 * m ≤ h) :
    check_corners_in_bounds (calculate_corners x y w h 0) W H m = false := by
  rw [Bool.eq_false_iff]
  intro htrue
  rw [check_corners_in_bounds_iff, calculate_corners_zero] at htrue
  have h0 := htrue (x - w / 2, y - h / 2) (by simp)
  have h2 := htrue (x + w / 2, y + h / 2) (by simp)
  rcases hw with hw | hh
  · have ha := h0.1
    have hb := h2.2.1
    simp only at ha hb
    linarith
  · have ha := h0.2.2.1
    have hb := h2.2.2.2
    simp only at ha hb
    linarith

-- ### Claim theorems: oversized items and margin relaxation

/-- C3.  At the failing input — an item of width 900 on the 800-wide canvas
with margin 20 — the placement loop does not skip the item: the relaxed
feasible x-range `[450, 350]` is still empty, `random.randint` raises
`ValueError` (modelled by `none`), and the exception propagates out of the
placement loop, aborting the run instead of completing it normally. -/
theorem c3_oversized_item_raises :
    try_place_word (800, 600) [] 900 40 0 20 ⟨fun _ => 0, 0⟩ = none ∧
    run_layout (800, 600) 20 [(900, 40, 0)] [] 0 ⟨fun _ => 0, 0⟩ = none :=
  ⟨rfl, rfl⟩

/-- C10 counterexample: the angle-0 item of width 810 on the 800-wide canvas
with margin 20 has an empty margined feasible x-range, so the claim applies to
it, yet `try_place_word` does not return a `None` rejection on the attempt:
the relaxed range `[405, 395]` is also empty and `random.randint` raises
`ValueError` (modelled by `none`, not by the claimed `some (none, _)`). -/
theorem c10_counterexample :
    try_place_word (800, 600) [] 810 40 0 20 ⟨fun _ => 0, 0⟩ = none := rfl

/-- C10 (amended).  For an angle-0 item whose margined feasible center range
is empty on some axis (the relaxation condition `min ≥ max` of
`try_place_word`), every attempt that draws a candidate at all — that is,
every attempt that returns rather than raising on an empty relaxed range —
is rejected: the full-margin `check_corners_in_bounds` test can never pass,
so the item is never placed, only skipped. -/
theorem c10_relaxed_margin_never_places (W H w h m : ℤ)
    (placed : List PlacedWord) (s : RandState) (res : Option (ℤ × ℤ))
    (s' : RandState)
    (hrelax : w / 2 + m ≥ W - w / 2 - m ∨
              h / 2 + m ≥ H - h / 2 - m)
    (hres : try_place_word (W, H) placed w h 0 m s = some (res, s')) :
    res = none := by
  rcases res with _ | ⟨x, y⟩
  · rfl
  exfalso
  have hok := (try_place_word_ok hres).1
  have hWq : (W : ℚ) - 2 * (m : ℚ) ≤ (w : ℚ) ∨
      (H : ℚ) - 2 * (m : ℚ) ≤ (h : ℚ) := by
    rcases hrelax with hr | hr
    · left
      have : W - 2 * m ≤ w := by omega
      exact_mod_cast this
    · right
      have : H - 2 * m ≤ h := by omega
      exact_mod_cast this
  rw [bounds_fail_of_relaxed (x : ℚ) (y : ℚ) (w : ℚ) (h : ℚ)
    (W : ℚ) (H : ℚ) (m : ℚ) hWq] at hok
  exact Bool.false_ne_true hok

/-- C10 witness: a concrete relaxed-range attempt (width 780 on the 800-wide
canvas, margin 20) that draws a candidate and is rejected. -/
theorem c10_witness :
    try_place_word (800, 600) [] 780 40 0 20 ⟨fun _ => 0, 0⟩ =
      some (none, ⟨fun _ => 0, 2⟩) ∧ (none : Option (ℤ × ℤ)) = none :=
  ⟨rfl, c10_relaxed_margin_never_places 800 600 780 40 20 [] ⟨fun _ => 0, 0⟩
    none ⟨fun _ => 0, 2⟩ (by decide) rfl⟩

-- ### Claim theorems: determinism and canvas-size monotonicity

/-- C6.  Determinism: two runs of `generate_word_puzzle` with the same
configuration (difficulty, ratio, custom word, parameter overrides, rendering
oracle, scramble fuel) and the same random source — the same draw sequence
from the same cursor — produce identical results, in particular the same
placed set and the same skip count. -/
theorem c6_determinism (difficulty : String) (correct_ratio : Option ℚ)
    (custom_word : Option String) (custom_params : Option PartialParams)
    (render : String → ℤ → ℤ → Option (ℤ × ℤ)) (fuel : ℕ)
    (s1 s2 : RandState) (hseq : ∀ i, s1.seq i = s2.seq i)
    (hidx : s1.idx = s2.idx) :
    generate_word_puzzle difficulty correct_ratio custom_word custom_params
      render fuel s1 =
    generate_word_puzzle difficulty correct_ratio custom_word custom_params
      render fuel s2 := by
  obtain ⟨f1, i1⟩ := s1
  obtain ⟨f2, i2⟩ := s2
  have hf : f1 = f2 := funext hseq
  simp only at hidx
  subst hf
  subst hidx
  rfl

/-- C6 witness: the determinism theorem applied at a concrete configuration
and random source. -/
theorem c6_witness :
    generate_word_puzzle "easy" (some 1) (some "act")
      (some { total_words_range := some (2, 2) })
      (fun _ _ _ => some (100, 40)) 0 ⟨fun i => if i = 7 then 210 else 0, 0⟩ =
    generate_word_puzzle "easy" (some 1) (some "act")
      (some { total_words_range := some (2, 2) })
      (fun _ _ _ => some (100, 40)) 0 ⟨fun i => if i = 7 then 210 else 0, 0⟩ :=
  c6_determinism "easy" (some 1) (some "act")
    (some { total_words_range := some (2, 2) })
    (fun _ _ _ => some (100, 40)) 0 _ _ (fun _ => rfl) rfl

/-- The draw sequence of the canvas-size counterexample: `792, 0, 0, …`. -/
def cexSeq : ℕ → ℕ := fun i => if i = 0 then 792 else 0

/-- One unfolding step of the attempt loop. -/
lemma attempt_loop_succ (sz : ℤ × ℤ) (placed : List PlacedWord)
    (w h a m : ℤ) (n : ℕ) (s : RandState) :
    attempt_loop sz placed w h a m (n + 1) s =
      match try_place_word sz placed w h a m s with
      | none => none
      | some (some pos, s2) => some (some pos, s2)
      | some (none, s2) => attempt_loop sz placed w h a m n s2 := rfl

/-- One unfolding step of the layout loop. -/
lemma run_layout_cons (sz : ℤ × ℤ) (m w h a : ℤ) (rest : List (ℤ × ℤ × ℤ))
    (placed : List PlacedWord) (skips : ℕ) (s : RandState) :
    run_layout sz m ((w, h, a) :: rest) placed skips s =
      match attempt_loop sz placed w h a m MAX_PLACEMENT_ATTEMPTS s with
      | none => none
      | some (some (x, y), s2) =>
        run_layout sz m rest (placed ++ [⟨x, y, w, h, a⟩]) skips s2
      | some (none, s2) => run_layout sz m rest placed (skips + 1) s2 := rfl

/-- On the 800-wide canvas, any zero draws place the second 100×40 item at
(70, 40), which overlaps the first item placed at (201, 40) within the
inter-item margin, so the attempt is rejected. -/
lemma c7_reject (s : RandState) (h0 : s.seq s.idx = 0)
    (h1 : s.seq (s.idx + 1) = 0) :
    try_place_word (800, 600) [⟨201, 40, 100, 40, 0⟩] 100 40 0 20 s =
      some (none, ⟨s.seq, s.idx + 2⟩) := by
  have hr1 : randint 70 730 s = some (70, ⟨s.seq, s.idx + 1⟩) := by
    norm_num [randint, drawNat, h0]
  have hr2 : randint 40 560 (⟨s.seq, s.idx + 1⟩ : RandState) =
      some (40, ⟨s.seq, s.idx + 2⟩) := by
    norm_num [randint, drawNat, h1]
  have hib : check_corners_in_bounds
      (calculate_corners (70 : ℚ) (40 : ℚ) 100 40 0) 800 600 20 = true := by
    rfl
  have hov : check_polygons_overlap
      (calculate_corners (70 : ℚ) (40 : ℚ) 100 40 0)
      (placedCorners ⟨201, 40, 100, 40, 0⟩) 20 = true := by rfl
  simp only [try_place_word]
  norm_num
  simp [hr1, hr2, hib, hov]

/-- With a draw sequence that is zero from the cursor onward, every number of
attempts at the second item is exhausted on the 800-wide canvas. -/
lemma c7_exhaust : ∀ (n : ℕ) (s : RandState),
    (∀ j, s.idx ≤ j → s.seq j = 0) →
    attempt_loop (800, 600) [⟨201, 40, 100, 40, 0⟩] 100 40 0 20 n s =
      some (none, ⟨s.seq, s.idx + 2 * n⟩) := by
  intro n
  induction n with
  | zero =>
    intro s hs
    show some (none, s) = some (none, ⟨s.seq, s.idx + 2 * 0⟩)
    rfl
  | succ k ih =>
    intro s hs
    rw [attempt_loop_succ, c7_reject s (hs _ le_rfl) (hs _ (by omega))]
    show attempt_loop (800, 600) [⟨201, 40, 100, 40, 0⟩] 100 40 0 20 k
        ⟨s.seq, s.idx + 2⟩ =
      some (none, ⟨s.seq, s.idx + 2 * (k + 1)⟩)
    rw [ih ⟨s.seq, s.idx + 2⟩ (fun j hj => hs j (by simp at hj; omega))]
    have harith : s.idx + 2 + 2 * k = s.idx + 2 * (k + 1) := by ring
    simp only [harith]

/-- The full 800×600 layout run on the counterexample stream: the first item
is placed, the second exhausts all 100 attempts, one skip. -/
lemma c7_run800 :
    run_layout (800, 600) 20 [(100, 40, 0), (100, 40, 0)] [] 0
      ⟨cexSeq, 0⟩ = some ([⟨201, 40, 100, 40, 0⟩], 1, ⟨cexSeq, 202⟩) := by
  have hA : attempt_loop (800, 600) [] 100 40 0 20 MAX_PLACEMENT_ATTEMPTS
      ⟨cexSeq, 0⟩ = some (some (201, 40), ⟨cexSeq, 2⟩) := by rfl
  have hB : attempt_loop (800, 600) [⟨201, 40, 100, 40, 0⟩] 100 40 0 20
      MAX_PLACEMENT_ATTEMPTS ⟨cexSeq, 2⟩ = some (none, ⟨cexSeq, 202⟩) := by
    have hzero : ∀ j : ℕ, 2 ≤ j → cexSeq j = 0 := fun j hj => by
      unfold cexSeq
      rw [if_neg (by omega)]
    have := c7_exhaust 100 ⟨cexSeq, 2⟩ (fun j hj => hzero j (by simpa using hj))
    simpa using this
  rw [run_layout_cons, hA]
  show run_layout (800, 600) 20 [(100, 40, 0)] [⟨201, 40, 100, 40, 0⟩] 0
      ⟨cexSeq, 2⟩ = some ([⟨201, 40, 100, 40, 0⟩], 1, ⟨cexSeq, 202⟩)
  rw [run_layout_cons, hB]
  rfl

/-- C7 counterexample: with the fixed item list `[(100, 40, 0), (100, 40, 0)]`,
margin 20 and the draw sequence `792, 0, 0, …`, the layout on the strictly
smaller 790×600 canvas places both items (skip count 0) while on the larger
800×600 canvas the second item collides on every one of its 100 attempts
(skip count 1): shrinking the canvas strictly decreased the skip count. -/
theorem c7_counterexample :
    ((run_layout (790, 600) 20 [(100, 40, 0), (100, 40, 0)] [] 0
        ⟨cexSeq, 0⟩).map (fun r => r.2.1) = some 0) ∧
    ((run_layout (800, 600) 20 [(100, 40, 0), (100, 40, 0)] [] 0
        ⟨cexSeq, 0⟩).map (fun r => r.2.1) = some 1) ∧
    (790 : ℤ) ≤ 800 ∧ (600 : ℤ) ≤ 600 ∧ (0 : ℕ) < 1 := by
  refine ⟨by rfl, ?_, by norm_num, by norm_num, by norm_num⟩
  rw [c7_run800]
  rfl

/-- C7 (amended).  What is monotone in the canvas size is the per-candidate
feasibility, not the skip count: any polygon accepted by the bounds test on
the smaller canvas is accepted on the larger one.  The skip count itself is
not monotone (see the counterexample): the candidate centers drawn from a
fixed seed sequence depend on the canvas dimensions, so a smaller canvas can
yield strictly fewer skips. -/
theorem c7_bounds_monotone (corners : List (ℚ × ℚ)) (W1 H1 W2 H2 m : ℚ)
    (hW : W2 ≤ W1) (hH : H2 ≤ H1)
    (h : check_corners_in_bounds corners W2 H2 m = true) :
    check_corners_in_bounds corners W1 H1 m = true := by
  rw [check_corners_in_bounds_iff] at h ⊢
  intro c hc
  obtain ⟨h1, h2, h3, h4⟩ := h c hc
  exact ⟨h1, by linarith, h3, by linarith⟩

/-- C7 witness: bounds monotonicity applied at a concrete polygon and pair of
canvas sizes. -/
theorem c7_witness :
    (790 : ℚ) ≤ 800 ∧ (600 : ℚ) ≤ 600 ∧
    check_corners_in_bounds [(20, 100), (120, 100), (120, 140), (20, 140)]
      790 600 20 = true ∧
    check_corners_in_bounds [(20, 100), (120, 100), (120, 140), (20, 140)]
      800 600 20 = true :=
  ⟨by norm_num, by norm_num, by decide,
    c7_bounds_monotone _ 800 600 790 600 20 (by norm_num) (by norm_num)
      (by decide)⟩

-- ### Placement invariants of the layout loop

/-- Invariant: every recorded placement's polygon is inside the margined
canvas region. -/
def placedInBounds (sz : ℤ × ℤ) (m : ℤ) (l : List PlacedWord) : Prop :=
  ∀ p ∈ l, check_corners_in_bounds (placedCorners p)
    (sz.1 : ℚ) (sz.2 : ℚ) (m : ℚ) = true

/-- Invariant: the recorded placements are pairwise non-overlapping under the
inter-item margin. -/
def pairwiseNoOverlap (l : List PlacedWord) : Prop :=
  l.Pairwise fun p q =>
    check_polygons_overlap (placedCorners p) (placedCorners q) 20 = false

/-- A successful attempt loop outcome satisfies both placement checks. -/
lemma attempt_loop_ok {sz : ℤ × ℤ} {placed : List PlacedWord} {w h a m : ℤ} :
    ∀ (n : ℕ) {s : RandState} {x y : ℤ} {s2 : RandState},
    attempt_loop sz placed w h a m n s = some (some (x, y), s2) →
    check_corners_in_bounds
      (calculate_corners (x : ℚ) (y : ℚ) (w : ℚ) (h : ℚ) a)
      (sz.1 : ℚ) (sz.2 : ℚ) (m : ℚ) = true ∧
    ∀ p ∈ placed, check_polygons_overlap
      (calculate_corners (x : ℚ) (y : ℚ) (w : ℚ) (h : ℚ) a)
      (placedCorners p) 20 = false := by
  intro n
  induction n with
  | zero => intro s x y s2 hres; simp [attempt_loop] at hres
  | succ k ih =>
    intro s x y s2 hres
    rw [attempt_loop_succ] at hres
    split at hres
    · exact absurd hres (by simp)
    · rename_i pos s3 heq
      simp only [Option.some.injEq, Prod.mk.injEq] at hres
      obtain ⟨hpos, _⟩ := hres
      subst hpos
      exact try_place_word_ok heq
    · exact ih hres

/-- Appending a placement that passed both checks preserves both
invariants. -/
lemma placed_invariant_append {sz : ℤ × ℤ} {m : ℤ} {placed : List PlacedWord}
    {x y w h a : ℤ}
    (hb : placedInBounds sz m placed) (hp : pairwiseNoOverlap placed)
    (hib : check_corners_in_bounds
      (calculate_corners (x : ℚ) (y : ℚ) (w : ℚ) (h : ℚ) a)
      (sz.1 : ℚ) (sz.2 : ℚ) (m : ℚ) = true)
    (hno : ∀ p ∈ placed, check_polygons_overlap
      (calculate_corners (x : ℚ) (y : ℚ) (w : ℚ) (h : ℚ) a)
      (placedCorners p) 20 = false) :
    placedInBounds sz m (placed ++ [⟨x, y, w, h, a⟩]) ∧
    pairwiseNoOverlap (placed ++ [⟨x, y, w, h, a⟩]) := by
  constructor
  · intro p hmem
    rcases List.mem_append.mp hmem with hin | hin
    · exact hb p hin
    · have : p = ⟨x, y, w, h, a⟩ := by simpa using hin
      subst this
      exact hib
  · rw [pairwiseNoOverlap, List.pairwise_append]
    refine ⟨hp, List.pairwise_singleton _ _, ?_⟩
    intro p hmem q hq
    have : q = ⟨x, y, w, h, a⟩ := by simpa using hq
    subst this
    rw [check_polygons_overlap_symm]
    exact hno p hmem

/-- The word loop of `generate_word_puzzle` preserves both placement
invariants. -/
lemma puzzle_loop_invariant (word : String) (cc : ℤ) (fsr : ℤ × ℤ)
    (render : String → ℤ → ℤ → Option (ℤ × ℤ)) (fuel : ℕ) :
    ∀ (rem i : ℕ) (placed : List PlacedWord) (c t : ℕ) (s : RandState)
      (out : List PlacedWord × ℕ × ℕ × RandState),
    puzzle_loop word cc fsr render fuel i rem placed c t s = some out →
    placedInBounds IMAGE_SIZE DEFAULT_SAFE_MARGIN placed →
    pairwiseNoOverlap placed →
    placedInBounds IMAGE_SIZE DEFAULT_SAFE_MARGIN out.1 ∧
    pairwiseNoOverlap out.1 := by
  intro rem
  induction rem with
  | zero =>
    intro i placed c t s out hres hb hp
    simp only [puzzle_loop] at hres
    obtain rfl : (placed, c, t, s) = out := by simpa using hres
    exact ⟨hb, hp⟩
  | succ k ih =>
    intro i placed c t s out hres hb hp
    simp only [puzzle_loop] at hres
    split at hres
    · exact absurd hres (by simp)
    split at hres
    · exact absurd hres (by simp)
    split at hres
    · exact absurd hres (by simp)
    split at hres
    · exact ih _ _ _ _ _ _ hres hb hp
    split at hres
    · exact absurd hres (by simp)
    · rename_i heq
      have hok := attempt_loop_ok _ heq
      have hnew := placed_invariant_append hb hp hok.1 hok.2
      exact ih _ _ _ _ _ _ hres hnew.1 hnew.2
    · exact ih _ _ _ _ _ _ hres hb hp

/-- A completed `generate_word_puzzle` run obtained its placed set from the
word loop started on the empty placed set. -/
lemma generate_placed {difficulty : String} {correct_ratio : Option ℚ}
    {custom_word : Option String} {custom_params : Option PartialParams}
    {render : String → ℤ → ℤ → Option (ℤ × ℤ)} {fuel : ℕ} {s : RandState}
    {r : GenResult}
    (hr : generate_word_puzzle difficulty correct_ratio custom_word
      custom_params render fuel s = some r) :
    ∃ (word : String) (cc : ℤ) (fsr : ℤ × ℤ) (rem : ℕ) (s0 : RandState)
      (ccount tcount : ℕ) (send : RandState),
      puzzle_loop word cc fsr render fuel 0 rem [] 0 0 s0 =
        some (r.placed_words, ccount, tcount, send) := by
  simp only [generate_word_puzzle] at hr
  split at hr
  · exact absurd hr (by simp)
  split at hr
  · exact absurd hr (by simp)
  split at hr
  · exact absurd hr (by simp)
  split at hr
  · exact absurd hr (by simp)
  · rename_i heq
    simp only [Option.some.injEq] at hr
    subst hr
    exact ⟨_, _, _, _, _, _, _, _, heq⟩

-- ### Claim theorems: the two layout invariants

/-- C1.  No-overlap invariant: in any completed layout run, any two distinct
items of the final placed set have non-overlapping polygons (recomputed by
`calculate_corners` from their recorded center, extents and angle) under the
SAT test with the inter-item margin 20. -/
theorem c1_no_overlap_invariant (difficulty : String)
    (correct_ratio : Option ℚ) (custom_word : Option String)
    (custom_params : Option PartialParams)
    (render : String → ℤ → ℤ → Option (ℤ × ℤ)) (fuel : ℕ) (s : RandState)
    (r : GenResult)
    (hr : generate_word_puzzle difficulty correct_ratio custom_word
      custom_params render fuel s = some r)
    (i j : ℕ) (hi : i < r.placed_words.length) (hj : j < r.placed_words.length)
    (hij : i ≠ j) :
    check_polygons_overlap
      (placedCorners (r.placed_words.get ⟨i, hi⟩))
      (placedCorners (r.placed_words.get ⟨j, hj⟩)) 20 = false := by
  obtain ⟨word, cc, fsr, rem, s0, ccount, tcount, send, hloop⟩ :=
    generate_placed hr
  have hinv := puzzle_loop_invariant word cc fsr render fuel rem 0 [] 0 0 s0 _
    hloop (fun p hp => absurd hp (List.not_mem_nil p)) List.Pairwise.nil
  have hpair : pairwiseNoOverlap r.placed_words := hinv.2
  rw [pairwiseNoOverlap, List.pairwise_iff_get] at hpair
  rcases lt_trichotomy i j with hlt | hEq | hgt
  · exact hpair ⟨i, hi⟩ ⟨j, hj⟩ hlt
  · exact absurd hEq hij
  · rw [check_polygons_overlap_symm]
    exact hpair ⟨j, hj⟩ ⟨i, hi⟩ hgt

/-- C1 witness: a concrete two-item run, with the no-overlap conclusion
instantiated at its two placed items. -/
theorem c1_witness :
    check_polygons_overlap (placedCorners ⟨70, 40, 100, 40, 0⟩)
      (placedCorners ⟨280, 40, 100, 40, 0⟩) 20 = false :=
  c1_no_overlap_invariant "easy" (some 1) (some "act")
    (some { total_words_range := some (2, 2) })
    (fun _ _ _ => some (100, 40)) 0 ⟨fun i => if i = 7 then 210 else 0, 0⟩
    ⟨"act", [⟨70, 40, 100, 40, 0⟩, ⟨280, 40, 100, 40, 0⟩], 2, 2, 2⟩
    (by rfl) 0 1 (by norm_num) (by norm_num) (by norm_num)

/-- C2.  Containment invariant: in any completed layout run, every corner of
every placed item's polygon (recomputed from its recorded fields) lies in the
half-open region `[margin, W - margin) × [margin, H - margin)` of the canvas,
with the global boundary margin `DEFAULT_SAFE_MARGIN = 20`. -/
theorem c2_containment_invariant (difficulty : String)
    (correct_ratio : Option ℚ) (custom_word : Option String)
    (custom_params : Option PartialParams)
    (render : String → ℤ → ℤ → Option (ℤ × ℤ)) (fuel : ℕ) (s : RandState)
    (r : GenResult)
    (hr : generate_word_puzzle difficulty correct_ratio custom_word
      custom_params render fuel s = some r) :
    ∀ p ∈ r.placed_words, ∀ c ∈ placedCorners p,
      (DEFAULT_SAFE_MARGIN : ℚ) ≤ c.1 ∧
      c.1 < (IMAGE_SIZE.1 : ℚ) - (DEFAULT_SAFE_MARGIN : ℚ) ∧
      (DEFAULT_SAFE_MARGIN : ℚ) ≤ c.2 ∧
      c.2 < (IMAGE_SIZE.2 : ℚ) - (DEFAULT_SAFE_MARGIN : ℚ) := by
  obtain ⟨word, cc, fsr, rem, s0, ccount, tcount, send, hloop⟩ :=
    generate_placed hr
  have hinv := puzzle_loop_invariant word cc fsr render fuel rem 0 [] 0 0 s0 _
    hloop (fun p hp => absurd hp (List.not_mem_nil p)) List.Pairwise.nil
  intro p hp
  have hb := hinv.1 p hp
  rw [check_corners_in_bounds_iff] at hb
  exact hb

/-- C2 witness: the containment conclusion instantiated at a concrete run, a
concrete placed item and its top-left corner. -/
theorem c2_witness :
    (DEFAULT_SAFE_MARGIN : ℚ) ≤ (20 : ℚ) ∧
    (20 : ℚ) < (IMAGE_SIZE.1 : ℚ) - (DEFAULT_SAFE_MARGIN : ℚ) ∧
    (DEFAULT_SAFE_MARGIN : ℚ) ≤ (20 : ℚ) ∧
    (20 : ℚ) < (IMAGE_SIZE.2 : ℚ) - (DEFAULT_SAFE_MARGIN : ℚ) :=
  c2_containment_invariant "easy" (some 1) (some "act")
    (some { total_words_range := some (2, 2) })
    (fun _ _ _ => some (100, 40)) 0 ⟨fun i => if i = 7 then 210 else 0, 0⟩
    ⟨"act", [⟨70, 40, 100, 40, 0⟩, ⟨280, 40, 100, 40, 0⟩], 2, 2, 2⟩
    (by rfl) ⟨70, 40, 100, 40, 0⟩ (by simp) ((20 : ℚ), (20 : ℚ)) (by decide)



-- ### Scramble lemmas

/-- Setting one position changes the multiset of a list by removing the old
element and inserting the new one (stated additively over counts). -/
lemma count_set (x b : Char) : ∀ (l : List Char) (i : ℕ) (hi : i < l.length),
    (l.set i b).count x + (if l.get ⟨i, hi⟩ = x then 1 else 0) =
    l.count x + (if b = x then 1 else 0) := by
  intro l
  induction l with
  | nil => intro i hi; simp at hi
  | cons hd tl ih =>
    intro i hi
    cases i with
    | zero =>
      have hget : (hd :: tl).get ⟨0, hi⟩ = hd := rfl
      simp only [List.set_cons_zero, List.count_cons, hget, beq_iff_eq]
      split_ifs <;> omega
    | succ n =>
      have hn : n < tl.length := by simpa using hi
      have hrec := ih n hn
      have hget : (hd :: tl).get ⟨n + 1, hi⟩ = tl.get ⟨n, hn⟩ := rfl
      simp only [List.set_cons_succ, List.count_cons, hget, beq_iff_eq]
      split_ifs at hrec ⊢ <;> omega

/-- Swapping two positions of a list is a permutation. -/
lemma listSwap_perm (l : List Char) (i j : ℕ) : (listSwap l i j).Perm l := by
  unfold listSwap
  split
  · rename_i a b hgi hgj
    have hi : i < l.length := by
      by_contra hcon
      rw [List.get?_eq_none.mpr (by omega)] at hgi
      exact Option.noConfusion hgi
    have hj : j < l.length := by
      by_contra hcon
      rw [List.get?_eq_none.mpr (by omega)] at hgj
      exact Option.noConfusion hgj
    have hga : l.get ⟨i, hi⟩ = a := by
      rw [List.get?_eq_getElem? ] at hgi
      simpa [List.getElem?_eq_getElem hi] using hgi
    have hgb : l.get ⟨j, hj⟩ = b := by
      rw [List.get?_eq_getElem? ] at hgj
      simpa [List.getElem?_eq_getElem hj] using hgj
    have hj2 : j < (l.set i b).length := by simpa using hj
    rw [List.perm_iff_count]
    intro x
    have h1 := count_set x b l i hi
    have h2 := count_set x a (l.set i b) j hj2
    rcases Decidable.em (i = j) with hij | hij
    · subst hij
      have hab : a = b := by rw [← hga, ← hgb]
      subst hab
      have hgetset : (l.set i a).get ⟨i, hj2⟩ = a := List.get_set_eq _
      rw [hgetset] at h2
      rw [hga] at h1
      generalize (if a = x then 1 else 0) = t1 at h1 h2
      omega
    · have hgetset : (l.set i b).get ⟨j, hj2⟩ = l.get ⟨j, hj⟩ := by
        simpa using List.getElem_set_ne (l := l) (a := b) hij hj2
      rw [hgetset, hgb] at h2
      rw [hga] at h1
      generalize (if a = x then 1 else 0) = t1 at h1 h2
      generalize (if b = x then 1 else 0) = t2 at h1 h2
      omega
  · exact List.Perm.refl l

/-- The Fisher–Yates loop produces a permutation of its input. -/
lemma shuffleAux_perm : ∀ (k : ℕ) (l : List Char) (s : RandState),
    (shuffleAux l k s).1.Perm l := by
  intro k
  induction k with
  | zero => intro l s; exact List.Perm.refl l
  | succ n ih =>
    intro l s
    exact (ih _ _).trans (listSwap_perm _ _ _)

/-- Model of `random.shuffle` rearranges, never adds or drops characters. -/
lemma shuffle_perm (l : List Char) (s : RandState) :
    (shuffle l s).1.Perm l := shuffleAux_perm _ l s

/-- Any successful exit of the scramble retry loop is a permutation of the
target word differing from it. -/
lemma scramble_aux_ok (word : List Char) : ∀ (fuel : ℕ) (chars : List Char)
    (s : RandState) (res : List Char) (s2 : RandState),
    chars.Perm word → scramble_aux word chars fuel s = some (res, s2) →
    res.Perm word ∧ res ≠ word := by
  intro fuel
  induction fuel with
  | zero => intro chars s res s2 _ hres; exact absurd hres (by simp [scramble_aux])
  | succ k ih =>
    intro chars s res s2 hperm hres
    simp only [scramble_aux] at hres
    rcases hsh : shuffle chars s with ⟨chars2, s3⟩
    rw [hsh] at hres
    have hperm2 : chars2.Perm word := by
      have hp := shuffle_perm chars s
      rw [hsh] at hp
      exact hp.trans hperm
    simp only at hres
    split_ifs at hres with heq
    · exact ih chars2 s3 res s2 hperm2 hres
    · simp only [Option.some.injEq, Prod.mk.injEq] at hres
      obtain ⟨rfl, _⟩ := hres
      exact ⟨hperm2, heq⟩


/-- C9 (amended).  Scrambling contract, partial-correctness form: whenever
`scramble_word` returns, the result is a character permutation of the input
word that differs from it. -/
theorem c9_scramble_contract (word : String) (fuel : ℕ) (s : RandState)
    (res : String) (s2 : RandState)
    (h : scramble_word word fuel s = some (res, s2)) :
    res.toList.Perm word.toList ∧ res ≠ word := by
  unfold scramble_word at h
  rcases ha : scramble_aux word.toList word.toList fuel s with _ | ⟨l, s3⟩
  · rw [ha] at h
    exact absurd h (by simp)
  · rw [ha] at h
    simp at h
    obtain ⟨hres, _⟩ := h
    have hok := scramble_aux_ok word.toList fuel word.toList s l s3
      (List.Perm.refl _) ha
    subst hres
    refine ⟨hok.1, fun hcon => hok.2 ?_⟩
    have hdata := congrArg String.toList hcon
    exact hdata

/-- C9 witness: a concrete scramble of "act" with the contract conclusions. -/
theorem c9_witness :
    scramble_word "act" 1 ⟨fun _ => 0, 0⟩ = some ("cta", ⟨fun _ => 0, 2⟩) ∧
    ("cta".toList.Perm "act".toList ∧ "cta" ≠ "act") :=
  ⟨rfl, c9_scramble_contract "act" 1 ⟨fun _ => 0, 0⟩ "cta" ⟨fun _ => 0, 2⟩ rfl⟩

/-- The scramble loop can never return for this word: every shuffle of it
equals it, so the retry loop never exits. -/
def scrambleNeverReturns (word : String) : Prop :=
  ∀ (fuel : ℕ) (s : RandState), scramble_word word fuel s = none

/-- C9 counterexample: on the input word "aaa" (every character equal),
`scramble_word` never terminates — every shuffle returns the word itself, so
the `while True` loop never exits (in the fuel model: `none` for every fuel
and every draw sequence). -/
theorem c9_counterexample : scrambleNeverReturns "aaa" := by
  intro fuel s
  have key : ∀ (fuel : ℕ) (chars : List Char) (s : RandState),
      chars.Perm "aaa".toList →
      scramble_aux "aaa".toList chars fuel s = none := by
    intro f
    induction f with
    | zero => intro chars s _; rfl
    | succ k ih =>
      intro chars s hperm
      simp only [scramble_aux]
      rcases hsh : shuffle chars s with ⟨chars2, s3⟩
      have hperm2 : chars2.Perm ("aaa".toList) := by
        have hp := shuffle_perm chars s
        rw [hsh] at hp
        exact hp.trans hperm
      have hall : ∀ c ∈ ("aaa".toList), c = 'a' := by decide
      have heq : chars2 = "aaa".toList := by
        have hlen := hperm2.length_eq
        have hmem : ∀ c ∈ chars2, c = 'a' := fun c hc =>
          hall c (hperm2.mem_iff.mp hc)
        have e1 : chars2 = List.replicate chars2.length 'a' :=
          List.eq_replicate_length.mpr hmem
        have e2 : ("aaa".toList) = List.replicate ("aaa".toList).length 'a' :=
          List.eq_replicate_length.mpr hall
        rw [e1, e2, hlen]
      rw [if_pos heq]
      exact ih chars2 s3 hperm2
  unfold scramble_word
  rw [key fuel "aaa".toList s (List.Perm.refl _)]
  rfl

end CountCorrectWords
